import Mathlib

/-!
Verification of the webappanalyzer fingerprint micro-language compiler and
confidence-scored match-evaluation engine, shallowly embedded from the Rust
sources (`src/tech/parse.rs`, `src/tech/check.rs`, `src/tech/mod.rs`,
`src/lib.rs`).

Strings are modelled as lists of characters (`Str`).  Rust `Result` values
together with possible panics are modelled by `ParseRes` (`panic` for a Rust
panic such as `unwrap`/`unreachable!`, `err` for `Result::Err`).  Check
functions, which in Rust return `Option<WappTechCheckResult>` but can panic,
are modelled by `PanicOr (Option WappTechCheckResult)`.

External collaborators (the regex engine and the CSS selector engine) are
modelled abstractly: a compiled regex is a function from input string to an
optional list of capture groups, and the two fixed regexes used by the
version-expression compiler (`^([^?]*)\?([^:]*):(.*)$` and `\\(\d+)`) are
translated into explicit string-splitting functions.  The regex crate's `\d`
is Unicode-aware (`\p{Nd}`), modelled by the Unicode 15.0 `Nd` range table
`ndRanges` below, while Rust's `usize::from_str`/`i32::from_str` accept only
the ASCII digits — so a backreference whose digit run contains a non-ASCII
decimal digit matches the regex but fails the integer parse, exactly as in
the source.
-/

/-- Rust `&str` / `String`, modelled as a list of characters. -/
abbrev Str : Type := List Char

/-- Coerce a Lean string literal into the model's string type. -/
def lit (s : String) : Str := s.data

/-- Outcome of a Rust computation returning `Result<α, Error>`, with `panic`
for an aborted computation (a failed `unwrap`, an `unreachable!`, an array
index out of range, or an explicit `panic!`). -/
inductive ParseRes (α : Type) : Type
  | panic : ParseRes α
  | err : ParseRes α
  | ok : α → ParseRes α
deriving DecidableEq

namespace ParseRes

/-- Sequencing of fallible Rust computations: a panic or an `Err` propagated
by `?` aborts the rest. -/
def bind {α β : Type} : ParseRes α → (α → ParseRes β) → ParseRes β
  | .panic, _ => .panic
  | .err, _ => .err
  | .ok a, f => f a

/-- Map over the success value. -/
def map {α β : Type} (f : α → β) : ParseRes α → ParseRes β
  | .panic => .panic
  | .err => .err
  | .ok a => .ok (f a)

/-- Rust's `Result::ok()`: convert to an `Option`, discarding the error.
(Meaningful only for non-panicking computations.) -/
def toOption {α : Type} : ParseRes α → Option α
  | .ok a => some a
  | _ => none

end ParseRes

/-- Outcome of a Rust computation returning a plain value but able to panic. -/
inductive PanicOr (α : Type) : Type
  | panic : PanicOr α
  | ok : α → PanicOr α
deriving DecidableEq

namespace PanicOr

/-- Map over the non-panicking value. -/
def map {α β : Type} (f : α → β) : PanicOr α → PanicOr β
  | .panic => .panic
  | .ok a => .ok (f a)

end PanicOr

/-! ## Data model (`src/tech/mod.rs`) -/

/-- `WappTechVersionValue` (mod.rs): a version-expression leaf, either literal
text or a reference to a numbered regex capture group. -/
inductive WappTechVersionValue : Type
  | Const : Str → WappTechVersionValue
  | Var : Nat → WappTechVersionValue
deriving DecidableEq

/-- `WappTechVersionPattern` (mod.rs): a compiled version expression. -/
inductive WappTechVersionPattern : Type
  | Always : WappTechVersionValue → WappTechVersionPattern
  | Conditional : Nat → Option WappTechVersionValue → Option WappTechVersionValue →
      WappTechVersionPattern
deriving DecidableEq

/-- `Tagged<T>` (mod.rs): a compiled rule — the inner matcher together with
the confidence weight (an `i32`, default 100) and the optional version
expression parsed from the rule's tag directives. -/
structure Tagged (T : Type) : Type where
  inner : T
  confidence : Int
  version : Option WappTechVersionPattern
deriving DecidableEq

/-- `WappTechCheckResult` (mod.rs): the outcome of one successful check. -/
structure WappTechCheckResult : Type where
  confidence : Int
  version : Option Str
deriving DecidableEq

/-- The capture groups of one regex match: entry `i` is the text of group `i`
if that group participated in the match (group 0 is the whole match).
An out-of-range index and a non-participating group both read as `none`,
matching `regex::Captures::get`. -/
def Captures : Type := List (Option Str)

/-- `Captures::get(i)` of the `regex` crate. -/
def Captures.get (c : Captures) (i : Nat) : Option Str := List.getD c i none

/-- A compiled regular expression, modelled as its matching behaviour:
`captures input` is `some` list of capture groups on a match, `none`
otherwise.  The regex engine itself is an external collaborator. -/
structure RegexM : Type where
  captures : Str → Option Captures

/-- An element of a parsed HTML document: its attributes, as exposed to the
DOM checks via `ElementRef::attr`. -/
structure Element : Type where
  attrs : List (Str × Str)

/-- `ElementRef::attr`: the first attribute with the given name. -/
def Element.attr (el : Element) (key : Str) : Option Str :=
  (el.attrs.find? (fun kv => kv.1 = key)).map (·.2)

/-- A parsed HTML document (`scraper::Html`), opaque to the core. -/
structure HtmlM : Type where
  elements : List Element

/-- A compiled CSS selector (`scraper::Selector`), modelled by its selection
behaviour `select : HtmlM → List Element`; an external collaborator. -/
structure SelectorM : Type where
  select : HtmlM → List Element

/-- `WappTechDomPatttern` (mod.rs; the triple-t spelling is the source's):
all checks grouped under one CSS selector. -/
structure WappTechDomPatttern : Type where
  selector : SelectorM
  exists_ : Tagged Unit
  text : Option (Tagged RegexM)
  attributes : List (Str × List (Tagged RegexM))

/-- `WappTechPricing` (mod.rs). -/
inductive WappTechPricing : Type
  | Low | Mid | High | Freemium | Onetime | Recurring | Poa | Payg
deriving DecidableEq

/-- `WappTech` (mod.rs): one technology's full compiled rule set (the unit
fields `icon`, `dns`, `js`, `css`, `probe`, `robots`, `xhr` of the source are
omitted). -/
structure WappTech : Type where
  name : Str
  cats : List Int
  website : Str
  description : Option Str
  cpe : Option Str
  saas : Option Bool
  oss : Option Bool
  pricing : List WappTechPricing
  cert_issuer : Option Str
  implies : List (Tagged Str)
  requires : List Str
  requires_category : List Int
  excludes : List Str
  cookies : List (Str × List (Tagged RegexM))
  dom : List WappTechDomPatttern
  headers : List (Str × List (Tagged RegexM))
  html : List (Tagged RegexM)
  text : List (Tagged RegexM)
  url : List (Tagged RegexM)
  meta : List (Str × List (Tagged RegexM))
  script_src : List (Tagged RegexM)
  scripts : List (Tagged RegexM)

/-- `WappPage` (lib.rs together with the capabilities consumed by
`WappTech::check` in check.rs): the signals a page may expose.  Headers and
cookies are name/value collections; an absent capability is `none`. -/
structure WappPage : Type where
  url : Option Str
  headers : Option (List (Str × Str))
  cookies : Option (List (Str × Str))
  dom : Option HtmlM
  html : Option Str
  text : Option Str

/-! ## Rule evaluation (`src/tech/check.rs`) -/

/-- `ResolveVersion for WappTechVersionValue` (check.rs lines 25–34):
`Const` yields its text; `Var i` indexes `captures[i]`, which in the `regex`
crate panics when group `i` is absent or did not participate in the match. -/
def WappTechVersionValue.resolve (v : WappTechVersionValue) (captures : Captures) :
    PanicOr Str :=
  match v with
  | .Const s => .ok s
  | .Var i =>
    match captures.get i with
    | some s => .ok s
    | none => .panic

/-- `ResolveVersion for Option<WappTechVersionValue>` (check.rs lines 36–42):
an absent value resolves to no version; a present one resolves (and can
panic). -/
def resolveOpt (v : Option WappTechVersionValue) (captures : Captures) :
    PanicOr (Option Str) :=
  match v with
  | none => .ok none
  | some x => (x.resolve captures).map some

/-- `WappTechCheck<()> for Tagged<()>` (check.rs lines 61–72): the existence
check.  It always produces `Some`, with the rule's confidence and the
`Always(Const(..))` version if present — but hits `unreachable!()` (a panic)
on any other version expression. -/
def Tagged.checkUnit (t : Tagged Unit) : PanicOr (Option WappTechCheckResult) :=
  match t.version with
  | some (.Always (.Const s)) => .ok (some ⟨t.confidence, some s⟩)
  | some _ => .panic
  | none => .ok (some ⟨t.confidence, none⟩)

/-- `WappTechCheck<&str> for Tagged<Regex>` (check.rs lines 74–94): run the
regex; on a match, resolve the version expression against the captures.  The
`Conditional` case tests participation of group `cond_var` with the safe
`Captures::get`, then resolves the chosen branch (which can still panic on a
bad `Var`). -/
def Tagged.checkRegex (t : Tagged RegexM) (input : Str) :
    PanicOr (Option WappTechCheckResult) :=
  match t.inner.captures input with
  | none => .ok none
  | some captures =>
    match t.version with
    | none => .ok (some ⟨t.confidence, none⟩)
    | some (.Always s) => (s.resolve captures).map (fun v => some ⟨t.confidence, some v⟩)
    | some (.Conditional cond_var true_expr false_expr) =>
      match captures.get cond_var with
      | some _ => (resolveOpt true_expr captures).map (fun v => some ⟨t.confidence, v⟩)
      | none => (resolveOpt false_expr captures).map (fun v => some ⟨t.confidence, v⟩)

/-- The running best's confidence, `best.as_ref().map(|x| x.confidence).unwrap_or(0)`
from the `handle_check_result!` macro (check.rs lines 44–55). -/
def bestConf (best : Option WappTechCheckResult) : Int :=
  (best.map (·.confidence)).getD 0

/-- The loop shared by every aggregation site (`handle_check_result!` applied
to a sequence of already-evaluated outcomes, check.rs lines 44–55 and
96–110): a panic while producing an outcome aborts; an outcome with
confidence `>= 100` is returned immediately, leaving the rest of the sequence
unexamined; otherwise the outcome replaces the running best only when its
confidence strictly exceeds the best's (0 when there is none). -/
def checkListGo : List (PanicOr (Option WappTechCheckResult)) →
    Option WappTechCheckResult → PanicOr (Option WappTechCheckResult)
  | [], best => .ok best
  | o :: rest, best =>
    match o with
    | .panic => .panic
    | .ok none => checkListGo rest best
    | .ok (some r) =>
      if 100 ≤ r.confidence then .ok (some r)
      else checkListGo rest (if bestConf best < r.confidence then some r else best)

/-- Aggregate an ordered sequence of rule outcomes, starting from no best. -/
def checkList (outs : List (PanicOr (Option WappTechCheckResult))) :
    PanicOr (Option WappTechCheckResult) :=
  checkListGo outs none

/-- `WappTechCheck<T> for Vec<P>` (check.rs lines 96–110): evaluate each rule
of the collection in declared order against the one input and aggregate. -/
def vecCheck {P T : Type} (chk : P → T → PanicOr (Option WappTechCheckResult))
    (pats : List P) (input : T) : PanicOr (Option WappTechCheckResult) :=
  checkList (pats.map (fun p => chk p input))

/-- `u8::eq_ignore_ascii_case` lifted to characters. -/
def Char.lowerAscii (c : Char) : Char :=
  if 'A' ≤ c ∧ c ≤ 'Z' then Char.ofNat (c.toNat + 32) else c

/-- `str::eq_ignore_ascii_case`. -/
def eqIgnoreAsciiCase (a b : Str) : Prop :=
  List.map Char.lowerAscii a = List.map Char.lowerAscii b

instance (a b : Str) : Decidable (eqIgnoreAsciiCase a b) :=
  inferInstanceAs (Decidable (_ = _))

/-- The keyed checks over `Vec<(String, Vec<Tagged<Regex>>)>`: iterate the
page's name/value pairs (outer loop), and for each one the declared keys
(inner loop); on a key match, the key's rule collection runs against the
value, and everything is folded through the shared aggregation loop. -/
def keyedCheck (keyEq : Str → Str → Bool)
    (pats : List (Str × List (Tagged RegexM))) (input : List (Str × Str)) :
    PanicOr (Option WappTechCheckResult) :=
  checkList (input.flatMap (fun kv =>
    (pats.filter (fun p => keyEq p.1 kv.1)).map
      (fun p => vecCheck Tagged.checkRegex p.2 kv.2)))

/-- `WappTechCheck<&HeaderMap>` (check.rs lines 119–134): header names are
compared ASCII-case-insensitively. -/
def headersCheck (pats : List (Str × List (Tagged RegexM)))
    (input : List (Str × Str)) : PanicOr (Option WappTechCheckResult) :=
  keyedCheck (fun a b => decide (eqIgnoreAsciiCase a b)) pats input

/-- `WappTechCheck<&[Cookie]>` (check.rs lines 136–151): cookie names are
compared exactly. -/
def cookiesCheck (pats : List (Str × List (Tagged RegexM)))
    (input : List (Str × Str)) : PanicOr (Option WappTechCheckResult) :=
  keyedCheck (fun a b => decide (a = b)) pats input

/-- `WappTechCheck<&Html> for WappTechDomPatttern` (check.rs lines 153–170):
for every element selected by the rule group's selector, fold the existence
check and then, for each declared attribute present on the element, that
attribute's rule collection against the attribute value.  (The `text` field
is never consulted by `check`.) -/
def WappTechDomPatttern.check (p : WappTechDomPatttern) (input : HtmlM) :
    PanicOr (Option WappTechCheckResult) :=
  checkList ((p.selector.select input).flatMap (fun el =>
    p.exists_.checkUnit ::
      p.attributes.flatMap (fun ap =>
        match el.attr ap.1 with
        | some v => [vecCheck Tagged.checkRegex ap.2 v]
        | none => [])))

/-! ### `WappTech::check` and its per-category entry points
(check.rs lines 172–227) -/

/-- `WappTech::check_url`. -/
def WappTech.checkUrl (t : WappTech) (url : Str) : PanicOr (Option WappTechCheckResult) :=
  vecCheck Tagged.checkRegex t.url url

/-- `WappTech::check_headers`. -/
def WappTech.checkHeaders (t : WappTech) (headers : List (Str × Str)) :
    PanicOr (Option WappTechCheckResult) :=
  headersCheck t.headers headers

/-- `WappTech::check_cookies`. -/
def WappTech.checkCookies (t : WappTech) (cookies : List (Str × Str)) :
    PanicOr (Option WappTechCheckResult) :=
  cookiesCheck t.cookies cookies

/-- `WappTech::check_dom`. -/
def WappTech.checkDom (t : WappTech) (dom : HtmlM) : PanicOr (Option WappTechCheckResult) :=
  vecCheck WappTechDomPatttern.check t.dom dom

/-- `WappTech::check_html`. -/
def WappTech.checkHtml (t : WappTech) (html : Str) : PanicOr (Option WappTechCheckResult) :=
  vecCheck Tagged.checkRegex t.html html

/-- `WappTech::check_text`. -/
def WappTech.checkText (t : WappTech) (text : Str) : PanicOr (Option WappTechCheckResult) :=
  vecCheck Tagged.checkRegex t.text text

/-- The sequence of category-level outcomes `WappTech::check` folds, in the
source's order (check.rs lines 200–226): URL, headers, cookies, DOM, HTML,
text — one entry per signal the page exposes. -/
def pageOutcomes (t : WappTech) (page : WappPage) :
    List (PanicOr (Option WappTechCheckResult)) :=
  (page.url.map (fun u => t.checkUrl u)).toList ++
  (page.headers.map (fun h => t.checkHeaders h)).toList ++
  (page.cookies.map (fun c => t.checkCookies c)).toList ++
  (page.dom.map (fun d => t.checkDom d)).toList ++
  (page.html.map (fun h => t.checkHtml h)).toList ++
  (page.text.map (fun x => t.checkText x)).toList

/-- `WappTech::check` (check.rs lines 200–226): fold the category-level
outcomes of the signals the page exposes through `handle_check_result!`. -/
def WappTech.check (t : WappTech) (page : WappPage) :
    PanicOr (Option WappTechCheckResult) :=
  checkList (pageOutcomes t page)

/-- A regex matching exactly the one-character input `a`, with group 0 as its
only capture group (e.g. the pattern `a`). -/
def reA : RegexM := ⟨fun s => if s = ['a'] then some [some ['a']] else none⟩

/-! ## The fingerprint micro-language compiler (`src/tech/parse.rs`) -/

/-- Split a string at the first occurrence of the character `c`:
`some (before, after)` when `c` occurs, `none` otherwise.  This is
`str::split_once` and also the string-decomposition performed by the
anchored regex `^([^c]*)c(.*)$`. -/
def splitOnce (c : Char) : Str → Option (Str × Str)
  | [] => none
  | x :: xs =>
    if x = c then some ([], xs)
    else (splitOnce c xs).map (fun p => (x :: p.1, p.2))

/-- Split a string on the literal two-character delimiter `\;`
(`input.split("\\;")` in `Tagged::parse`, parse.rs line 189).  Always yields
at least one segment. -/
def splitDelim : Str → List Str
  | [] => [[]]
  | [c] => [[c]]
  | c :: r :: rest =>
    if c = '\\' ∧ r = ';' then [] :: splitDelim rest
    else
      match splitDelim (r :: rest) with
      | [] => [[c]]
      | s :: ss => (c :: s) :: ss

/-- The codepoint ranges of the Unicode 15.0 general category `Nd` (decimal
number), the character class the regex crate's `\d` matches: 63 ten-digit
runs plus the fifty mathematical digits at U+1D7CE–U+1D7FF, 680 characters in
all. -/
def ndRanges : List (Nat × Nat) :=
  [(0x30, 0x39), (0x660, 0x669), (0x6F0, 0x6F9), (0x7C0, 0x7C9),
   (0x966, 0x96F), (0x9E6, 0x9EF), (0xA66, 0xA6F), (0xAE6, 0xAEF),
   (0xB66, 0xB6F), (0xBE6, 0xBEF), (0xC66, 0xC6F), (0xCE6, 0xCEF),
   (0xD66, 0xD6F), (0xDE6, 0xDEF), (0xE50, 0xE59), (0xED0, 0xED9),
   (0xF20, 0xF29), (0x1040, 0x1049), (0x1090, 0x1099), (0x17E0, 0x17E9),
   (0x1810, 0x1819), (0x1946, 0x194F), (0x19D0, 0x19D9), (0x1A80, 0x1A89),
   (0x1A90, 0x1A99), (0x1B50, 0x1B59), (0x1BB0, 0x1BB9), (0x1C40, 0x1C49),
   (0x1C50, 0x1C59), (0xA620, 0xA629), (0xA8D0, 0xA8D9), (0xA900, 0xA909),
   (0xA9D0, 0xA9D9), (0xA9F0, 0xA9F9), (0xAA50, 0xAA59), (0xABF0, 0xABF9),
   (0xFF10, 0xFF19), (0x104A0, 0x104A9), (0x10D30, 0x10D39),
   (0x11066, 0x1106F), (0x110F0, 0x110F9), (0x11136, 0x1113F),
   (0x111D0, 0x111D9), (0x112F0, 0x112F9), (0x11450, 0x11459),
   (0x114D0, 0x114D9), (0x11650, 0x11659), (0x116C0, 0x116C9),
   (0x11730, 0x11739), (0x118E0, 0x118E9), (0x11950, 0x11959),
   (0x11C50, 0x11C59), (0x11D50, 0x11D59), (0x11DA0, 0x11DA9),
   (0x11F50, 0x11F59), (0x16A60, 0x16A69), (0x16AC0, 0x16AC9),
   (0x16B50, 0x16B59), (0x1D7CE, 0x1D7FF), (0x1E140, 0x1E149),
   (0x1E2F0, 0x1E2F9), (0x1E4F0, 0x1E4F9), (0x1E950, 0x1E959),
   (0x1FBF0, 0x1FBF9)]

/-- A Unicode decimal digit (`\p{Nd}`), what the regex crate's `\d`
matches. -/
def Char.isNd (c : Char) : Bool :=
  ndRanges.any (fun r => decide (r.1 ≤ c.toNat ∧ c.toNat ≤ r.2))

/-- Maximal `\p{Nd}`-digit prefix of a string (the greedy `\d+`), and the
remainder. -/
def digitRun : Str → Str × Str
  | [] => ([], [])
  | c :: rest =>
    if c.isNd then
      let p := digitRun rest
      (c :: p.1, p.2)
    else ([], c :: rest)

/-- Numeric value of a non-empty all-ASCII-digit string (`none` otherwise),
the core of Rust's unsigned `from_str` — which accepts only the ASCII digits
`0`–`9`, so a Unicode digit that `\d` matched still fails here with
`InvalidDigit`. -/
def digitsVal (s : Str) : Option Nat :=
  if s = [] ∨ ¬ (s.all Char.isDigit) then none
  else some (s.foldl (fun acc c => acc * 10 + (c.toNat - '0'.toNat)) 0)

/-- The leftmost match of the backreference regex `\\(\d+)` (parse.rs line
254): `some (prefix, digits, suffix)` decomposes the input as
`prefix ++ '\' :: digits ++ suffix` with `digits` the maximal non-empty
`\p{Nd}` run after the leftmost backslash-digit occurrence. -/
def findBackref : Str → Option (Str × Str × Str)
  | [] => none
  | '\\' :: rest =>
    match digitRun rest with
    | ([], _) => (findBackref rest).map (fun p => ('\\' :: p.1, p.2.1, p.2.2))
    | (d :: ds, t) => some ([], d :: ds, t)
  | c :: rest => (findBackref rest).map (fun p => (c :: p.1, p.2.1, p.2.2))

/-- `usize::from_str` on the captured digit run: errors when the run contains
a non-ASCII digit (`InvalidDigit`) or the value overflows the 64-bit
`usize`. -/
def parseUsize (s : Str) : Option Nat :=
  (digitsVal s).bind (fun n => if n < 2 ^ 64 then some n else none)

/-- `i32::from_str`: an optional sign followed by digits, rejecting values
outside the 32-bit range. -/
def parseI32 : Str → Option Int
  | [] => none
  | c :: rest =>
    if c = '+' then
      (digitsVal rest).bind (fun n => if n < 2 ^ 31 then some (n : Int) else none)
    else if c = '-' then
      (digitsVal rest).bind (fun n => if n ≤ 2 ^ 31 then some (-(n : Int)) else none)
    else
      (digitsVal (c :: rest)).bind (fun n => if n < 2 ^ 31 then some (n : Int) else none)

/-- `WappTechVersionValue::parse` (parse.rs lines 247–269): the empty string
is no value; a string containing a backslash-digit run is `Var` when the run
is the whole string (by the source's length comparison `c[0].len() !=
input.len()`) and an error otherwise (also on `usize` overflow of the digit
run); any other string is `Const` verbatim. -/
def WappTechVersionValue.parse (input : Str) : ParseRes (Option WappTechVersionValue) :=
  if input = [] then .ok none
  else
    match findBackref input with
    | some (_, ds, _) =>
      if 1 + ds.length ≠ input.length then .err
      else
        match parseUsize ds with
        | none => .err
        | some n => .ok (some (.Var n))
    | none => .ok (some (.Const input))

/-- The decomposition performed by the conditional-shape regex
`^([^?]*)\?([^:]*):(.*)$` (parse.rs line 219): split at the first `?`, then
at the first following `:`; the final `(.*)` cannot match a newline, so the
shape fails when the remaining suffix contains one. -/
def condShape (input : Str) : Option (Str × Str × Str) :=
  match splitOnce '?' input with
  | none => none
  | some (pre, rest) =>
    match splitOnce ':' rest with
    | none => none
    | some (mid, suf) => if '\n' ∈ suf then none else some (pre, mid, suf)

/-- `WappTechVersionPattern::parse` (parse.rs lines 216–245): a string of the
conditional shape compiles the three captured segments — the condition must
compile to a `Var` (a `Const` or an empty condition is an error) — while any
other string compiles as `Always` of its whole value (an empty value being an
error). -/
def WappTechVersionPattern.parse (input : Str) : ParseRes WappTechVersionPattern :=
  match condShape input with
  | some (c1, c2, c3) =>
    (WappTechVersionValue.parse c1).bind (fun cv =>
      match cv with
      | some (.Var i) =>
        (WappTechVersionValue.parse c2).bind (fun true_expr =>
          (WappTechVersionValue.parse c3).bind (fun false_expr =>
            .ok (.Conditional i true_expr false_expr)))
      | some (.Const _) => .err
      | none => .err)
  | none =>
    (WappTechVersionValue.parse input).bind (fun v =>
      match v with
      | some v => .ok (.Always v)
      | none => .err)

/-- One pass of the directive loop of `Tagged::parse` (parse.rs lines
195–206): each segment after the first must split at a `:` (`split_once`
`unwrap` — a panic otherwise); a `confidence` value is parsed with
`parse().unwrap()` (a panic when not an integer); a `version` value goes to
the version-expression compiler with `?` (an error); any other key is a
`bail!` error. -/
def applyDirectives : List Str → Int → Option WappTechVersionPattern →
    ParseRes (Int × Option WappTechVersionPattern)
  | [], confidence, version => .ok (confidence, version)
  | p :: rest, confidence, version =>
    match splitOnce ':' p with
    | none => .panic
    | some (k, v) =>
      if k = lit "confidence" then
        match parseI32 v with
        | none => .panic
        | some c => applyDirectives rest c version
      else if k = lit "version" then
        (WappTechVersionPattern.parse v).bind (fun vp =>
          applyDirectives rest confidence (some vp))
      else .err

/-- `Tagged::<T>::parse` (parse.rs lines 184–214): split on `\;`, default
confidence 100 and no version, fold the directive segments, then run the
inner parser on the first segment. -/
def Tagged.parse {T : Type} (innerP : Str → ParseRes T) (input : Str) :
    ParseRes (Tagged T) :=
  match splitDelim input with
  | [] => .panic
  | inner_input :: parts =>
    (applyDirectives parts 100 none).bind (fun cv =>
      (innerP inner_input).map (fun x => ⟨x, cv.1, cv.2⟩))

/-- The inner parser used for `implies` strings (parse.rs line 95):
`|t| Ok(t.to_string())`. -/
def strInner : Str → ParseRes Str := fun s => .ok s

/-! ## Loading a technology database (`src/tech/parse.rs`, lines 13–172 and
271–368).  JSON deserialization itself (`serde_json`) is an external
collaborator; the model starts from already-deserialized `serde_json::Value`
trees and `WappTechRaw` records. -/

/-- A `serde_json::Value` (numbers carried as integers, which covers every
value the loader inspects). -/
inductive Json : Type
  | null : Json
  | bool : Bool → Json
  | num : Int → Json
  | str : Str → Json
  | arr : List Json → Json
  | obj : List (Str × Json) → Json

/-- Gather the `Ok` results of a sequence of fallible computations, dropping
the `Err`s; a panic anywhere aborts
(`.map(f).filter_map(|x| x.ok()).collect()`). -/
def collectOks {T : Type} : List (ParseRes T) → ParseRes (List T)
  | [] => .ok []
  | .panic :: _ => .panic
  | .err :: rest => collectOks rest
  | .ok v :: rest => (collectOks rest).map (fun l => v :: l)

/-- `to_vec` (parse.rs lines 62–74): an absent value is the empty collection,
an array maps `f` over its items dropping the failures, and any other value
is a singleton when `f` succeeds on it and empty otherwise. -/
def toVec {T : Type} (f : Json → ParseRes T) : Option Json → ParseRes (List T)
  | none => .ok []
  | some (.arr a) => collectOks (a.map f)
  | some x =>
    match f x with
    | .panic => .panic
    | .err => .ok []
    | .ok v => .ok [v]

/-- The wrapping cast `as i32` applied to an `i64` (`to_i32_vec`). -/
def wrapI32 (n : Int) : Int := (n + 2 ^ 31) % 2 ^ 32 - 2 ^ 31

/-- `to_i32_vec` (parse.rs lines 76–84). -/
def toI32Vec : Option Json → ParseRes (List Int) :=
  toVec (fun x =>
    match x with
    | .num n => if -(2 ^ 63) ≤ n ∧ n < 2 ^ 63 then .ok (wrapI32 n) else .err
    | _ => .err)

/-- `to_string_vec` (parse.rs lines 86–91). -/
def toStringVec : Option Json → ParseRes (List Str) :=
  toVec (fun x =>
    match x with
    | .str s => .ok s
    | _ => .err)

/-- `to_tagged_string_vec` (parse.rs lines 93–98). -/
def toTaggedStringVec : Option Json → ParseRes (List (Tagged Str)) :=
  toVec (fun x =>
    match x with
    | .str s => Tagged.parse strInner s
    | _ => .err)

/-- `to_pattern_vec` (parse.rs lines 100–107), parameterized by the external
regex compiler `regexNew` (`Regex::new`, failing with an error on an invalid
pattern). -/
def toPatternVec (regexNew : Str → ParseRes RegexM) : Option Json → ParseRes (List (Tagged RegexM)) :=
  toVec (fun x =>
    match x with
    | .str s => Tagged.parse regexNew s
    | _ => .err)

/-- Run a fallible computation over each list element, stopping at the first
panic or error. -/
def ParseRes.mapList {α β : Type} (f : α → ParseRes β) : List α → ParseRes (List β)
  | [] => .ok []
  | a :: rest => (f a).bind (fun b => (ParseRes.mapList f rest).map (fun l => b :: l))

/-- `to_pattern_map` (parse.rs lines 109–121): an absent value is the empty
map, an object compiles each entry's value with `to_pattern_vec`, and any
other value is an error (which `load_from_bytes` propagates with `?`). -/
def toPatternMap (regexNew : Str → ParseRes RegexM) :
    Option Json → ParseRes (List (Str × List (Tagged RegexM)))
  | none => .ok []
  | some (.obj o) =>
    ParseRes.mapList
      (fun kv => (toPatternVec regexNew (some kv.2)).map (fun v => (kv.1, v))) o
  | some _ => .err

/-- `WappTechDomPatttern::from_selector` (parse.rs lines 271–288),
parameterized by the external selector compiler `selNew`
(`Selector::parse`, failing with an error on an invalid selector):
tag-directive-parse the selector string, then build a rule group whose
`exists` check inherits the confidence and (any) version expression. -/
def WappTechDomPatttern.from_selector (selNew : Str → ParseRes SelectorM) (input : Str) :
    ParseRes WappTechDomPatttern :=
  (Tagged.parse selNew input).map (fun ts =>
    { selector := ts.inner
      exists_ := ⟨(), ts.confidence, ts.version⟩
      text := none
      attributes := [] })

/-- The inner parser of the `exists` key (parse.rs lines 328–333): accepts
only an empty bare pattern. -/
def emptyInner : Str → ParseRes Unit := fun t => if t = [] then .ok () else .err

/-- One entry of a DOM description object (the inner loop of
`WappTechDomPatttern::from_json`, parse.rs lines 321–360): `exists`, `text`,
`attributes`/`properties` and `src` update or skip; any other key is
`panic!`. -/
def domDescStep (regexNew : Str → ParseRes RegexM) (pat : WappTechDomPatttern)
    (kv : Str × Json) : ParseRes WappTechDomPatttern :=
  if kv.1 = lit "exists" then
    match kv.2 with
    | .str s =>
      match Tagged.parse emptyInner s with
      | .panic => .panic
      | .err => .ok pat
      | .ok p => .ok { pat with exists_ := p }
    | _ => .ok pat
  else if kv.1 = lit "text" then
    match kv.2 with
    | .str s =>
      match Tagged.parse regexNew s with
      | .panic => .panic
      | .err => .ok { pat with text := none }
      | .ok t => .ok { pat with text := some t }
    | _ => .ok { pat with text := none }
  else if kv.1 = lit "attributes" ∨ kv.1 = lit "properties" then
    match toPatternMap regexNew (some kv.2) with
    | .panic => .panic
    | .err => .ok pat
    | .ok x => .ok { pat with attributes := pat.attributes ++ x }
  else if kv.1 = lit "src" then .ok pat
  else .panic

/-- Fold `domDescStep` over a description object's entries. -/
def domDescApply (regexNew : Str → ParseRes RegexM) (pat : WappTechDomPatttern) :
    List (Str × Json) → ParseRes WappTechDomPatttern
  | [] => .ok pat
  | kv :: rest =>
    (domDescStep regexNew pat kv).bind (fun p => domDescApply regexNew p rest)

/-- The object case of `from_json` (parse.rs lines 310–363): each entry is a
selector with a description object; a selector that fails to compile, or a
non-object description, skips the entry. -/
def fromJsonObjEntries (selNew : Str → ParseRes SelectorM)
    (regexNew : Str → ParseRes RegexM) :
    List (Str × Json) → ParseRes (List WappTechDomPatttern)
  | [] => .ok []
  | (sel, description) :: rest =>
    match WappTechDomPatttern.from_selector selNew sel with
    | .panic => .panic
    | .err => fromJsonObjEntries selNew regexNew rest
    | .ok pat =>
      match description with
      | .obj d =>
        (domDescApply regexNew pat d).bind (fun p =>
          (fromJsonObjEntries selNew regexNew rest).map (fun l => p :: l))
      | _ => fromJsonObjEntries selNew regexNew rest

/-- The array case of `from_json` (parse.rs lines 296–309): non-string items
and invalid selectors are skipped. -/
def fromJsonArr (selNew : Str → ParseRes SelectorM) :
    List Json → ParseRes (List WappTechDomPatttern)
  | [] => .ok []
  | .str s :: rest =>
    match WappTechDomPatttern.from_selector selNew s with
    | .panic => .panic
    | .err => fromJsonArr selNew rest
    | .ok v => (fromJsonArr selNew rest).map (fun l => v :: l)
  | _ :: rest => fromJsonArr selNew rest

/-- `WappTechDomPatttern::from_json` (parse.rs lines 290–367): a string is a
bare selector, an array a list of bare selectors, an object maps selectors to
description objects — and any other JSON value is `panic!()`. -/
def WappTechDomPatttern.from_json (selNew : Str → ParseRes SelectorM)
    (regexNew : Str → ParseRes RegexM) : Json → ParseRes (List WappTechDomPatttern)
  | .str s =>
    match WappTechDomPatttern.from_selector selNew s with
    | .panic => .panic
    | .err => .ok []
    | .ok x => .ok [x]
  | .arr a => fromJsonArr selNew a
  | .obj o => fromJsonObjEntries selNew regexNew o
  | _ => .panic

/-- `WappTechRaw` (parse.rs lines 13–51): one technology record as
deserialized by serde (the permanently ignored fields `icon`, `dns`, `js`,
`css`, `probe`, `robots`, `xhr` are omitted). -/
structure WappTechRaw : Type where
  cats : List Int
  website : Str
  description : Option Str
  cpe : Option Str
  saas : Option Bool
  oss : Option Bool
  pricing : Option (List WappTechPricing)
  cert_issuer : Option Str
  implies : Option Json
  requires : Option Json
  requires_category : Option Json
  excludes : Option Json
  cookies : Option Json
  dom : Option Json
  headers : Option Json
  html : Option Json
  text : Option Json
  url : Option Json
  meta : Option Json
  script_src : Option Json
  scripts : Option Json

/-- The per-record body of `WappTech::load_from_bytes` (parse.rs lines
130–167), with the source's field evaluation order: the keyed categories
(`cookies`, `headers`, `meta`) propagate a wrong-JSON-type error with `?`,
and any panic from a directive parse or from `from_json` aborts. -/
def WappTech.loadTech (selNew : Str → ParseRes SelectorM)
    (regexNew : Str → ParseRes RegexM) (name : Str) (item : WappTechRaw) :
    ParseRes WappTech :=
  (toTaggedStringVec item.implies).bind (fun impliesV =>
  (toStringVec item.requires).bind (fun requiresV =>
  (toI32Vec item.requires_category).bind (fun requiresCatV =>
  (toStringVec item.excludes).bind (fun excludesV =>
  (toPatternMap regexNew item.cookies).bind (fun cookiesV =>
  (match item.dom with
   | none => (.ok [] : ParseRes (List WappTechDomPatttern))
   | some d => WappTechDomPatttern.from_json selNew regexNew d).bind (fun domV =>
  (toPatternMap regexNew item.headers).bind (fun headersV =>
  (toPatternVec regexNew item.html).bind (fun htmlV =>
  (toPatternVec regexNew item.text).bind (fun textV =>
  (toPatternVec regexNew item.url).bind (fun urlV =>
  (toPatternMap regexNew item.meta).bind (fun metaV =>
  (toPatternVec regexNew item.script_src).bind (fun scriptSrcV =>
  (toPatternVec regexNew item.scripts).map (fun scriptsV =>
    { name := name
      cats := item.cats
      website := item.website
      description := item.description
      cpe := item.cpe
      saas := item.saas
      oss := item.oss
      pricing := item.pricing.getD []
      cert_issuer := item.cert_issuer
      implies := impliesV
      requires := requiresV
      requires_category := requiresCatV
      excludes := excludesV
      cookies := cookiesV
      dom := domV
      headers := headersV
      html := htmlV
      text := textV
      url := urlV
      meta := metaV
      script_src := scriptSrcV
      scripts := scriptsV })))))))))))))

/-- The record loop of `WappTech::load_from_bytes` (parse.rs lines 124–171):
every record must load; a panic or a propagated error from any one record
aborts the load of the whole database. -/
def WappTech.loadFromData (selNew : Str → ParseRes SelectorM)
    (regexNew : Str → ParseRes RegexM) :
    List (Str × WappTechRaw) → ParseRes (List (Str × WappTech))
  | [] => .ok []
  | (name, item) :: rest =>
    (WappTech.loadTech selNew regexNew name item).bind (fun t =>
      (WappTech.loadFromData selNew regexNew rest).map (fun l => (name, t) :: l))

/-! ## Comparison definitions and concrete fixtures used by the claims -/

/-- A page as described by the specification's capability interface (§6),
which in addition to the six signals of the implementation's page type also
exposes script-source URLs, script bodies, and meta tags. -/
structure WappPageSpec : Type where
  base : WappPage
  script_src : Option (List Str)
  scripts : Option (List Str)
  meta : Option (List (Str × Str))

/-- The signal dispatcher as worded by the specification (§4.6): fold
category-level outcomes in the fixed order URL, headers, cookies, DOM, HTML,
text, script sources, script contents, meta, each category present only when
the page exposes it; script categories fold the rules' aggregate over each
exposed string, and meta is keyed with exact name matching.  This is the
comparison point for the dispatcher claim — the implementation's
`WappTech.check` is the first six categories only. -/
def WappTech.checkSpecNineCategories (t : WappTech) (p : WappPageSpec) :
    PanicOr (Option WappTechCheckResult) :=
  checkList (pageOutcomes t p.base ++
    (p.script_src.map (fun urls =>
      checkList (urls.map (fun u => vecCheck Tagged.checkRegex t.script_src u)))).toList ++
    (p.scripts.map (fun bodies =>
      checkList (bodies.map (fun b => vecCheck Tagged.checkRegex t.scripts b)))).toList ++
    (p.meta.map (fun ms => keyedCheck (fun a b => decide (a = b)) t.meta ms)).toList)

/-- A regex matching every input, with group 0 as its only capture group
(e.g. the empty pattern). -/
def reAll : RegexM := ⟨fun s => some [some s]⟩

/-- A technology whose only rules are a match-anything, confidence-100 rule
in each of the `meta`, `script_src` and `scripts` categories. -/
def techMetaOnly : WappTech :=
  { name := lit "T", cats := [], website := lit "w", description := none
    cpe := none, saas := none, oss := none, pricing := [], cert_issuer := none
    implies := [], requires := [], requires_category := [], excludes := []
    cookies := [], dom := [], headers := [], html := [], text := [], url := []
    meta := [(lit "generator", [⟨reAll, 100, none⟩])]
    script_src := [⟨reAll, 100, none⟩]
    scripts := [⟨reAll, 100, none⟩] }

/-- A page exposing every signal of the specification's capability interface,
including a `generator` meta tag, a script source and a script body. -/
def pageFull : WappPageSpec :=
  { base :=
      { url := some (lit "u"), headers := some [], cookies := some []
        dom := some ⟨[]⟩, html := some (lit "h"), text := some (lit "x") }
    script_src := some [lit "s.js"]
    scripts := some [lit "var x"]
    meta := some [(lit "generator", lit "WordPress")] }

/-- An outcome that cannot trigger the aggregator's early exit: not a panic,
and below confidence 100 when it is a `Some`. -/
def belowCap : PanicOr (Option WappTechCheckResult) → Bool
  | .panic => false
  | .ok none => true
  | .ok (some r) => decide (r.confidence < 100)

/-- A pure outcome below the aggregator's early-exit threshold: below
confidence 100 when it is a `Some`. -/
def belowCapPure : Option WappTechCheckResult → Bool
  | none => true
  | some r => decide (r.confidence < 100)

/-- The aggregation loop over pure outcomes (no panics): `handle_check_result!`
(check.rs lines 44–55) folded over a sequence of already-evaluated
`Option<WappTechCheckResult>` values, carrying the running best.  Related to
the program's loop by `checkList_map_ok` below. -/
def aggPureGo : List (Option WappTechCheckResult) → Option WappTechCheckResult →
    Option WappTechCheckResult
  | [], best => best
  | none :: rest, best => aggPureGo rest best
  | some r :: rest, best =>
    if 100 ≤ r.confidence then some r
    else aggPureGo rest (if bestConf best < r.confidence then some r else best)

/-- Aggregate a sequence of pure rule outcomes from no best. -/
def aggregatePure (outs : List (Option WappTechCheckResult)) :
    Option WappTechCheckResult :=
  aggPureGo outs none

/-- The confidences of the `Some` outcomes of a sequence, in order. -/
def someConfs (outs : List (Option WappTechCheckResult)) : List Int :=
  outs.filterMap (fun o => o.map (·.confidence))

/-- The maximum confidence among the `Some` outcomes (0 when there are none),
the quantity the aggregation claims are about. -/
def maxConf (outs : List (Option WappTechCheckResult)) : Int :=
  (someConfs outs).foldr max 0

/-- A selector compiler accepting every selector string (selection behaviour
irrelevant to the parsing claims). -/
def selNewToy : Str → ParseRes SelectorM := fun _ => .ok ⟨fun _ => []⟩

/-- A regex compiler accepting every pattern string (matching behaviour
irrelevant to the loading claims). -/
def regexNewToy : Str → ParseRes RegexM := fun _ => .ok ⟨fun _ => none⟩

/-- A minimal raw technology record: two categories of interest empty, all
optional fields absent. -/
def rawEmpty : WappTechRaw :=
  { cats := [], website := lit "w", description := none, cpe := none
    saas := none, oss := none, pricing := none, cert_issuer := none
    implies := none, requires := none, requires_category := none
    excludes := none, cookies := none, dom := none, headers := none
    html := none, text := none, url := none, meta := none
    script_src := none, scripts := none }

/-- A raw record whose `cookies` field carries a wrongly-typed JSON value
(a number instead of an object). -/
def rawBadCookies : WappTechRaw := { rawEmpty with cookies := some (.num 5) }

/-- The inner JSON handler of `to_string_vec`-style loading used as a
concrete fixture: accepts strings, rejects everything else. -/
def jsonStrInner : Json → ParseRes Str
  | .str s => .ok s
  | _ => .err

/-! ## Helper lemmas -/

lemma checkListGo_short_circuit (pre suf : List (PanicOr (Option WappTechCheckResult)))
    (r : WappTechCheckResult) (best : Option WappTechCheckResult)
    (hpre : ∀ o ∈ pre, belowCap o = true) (hr : 100 ≤ r.confidence) :
    checkListGo (pre ++ .ok (some r) :: suf) best = .ok (some r) := by
  induction pre generalizing best with
  | nil => simp [checkListGo, hr]
  | cons o rest ih =>
    have ho := hpre o (List.mem_cons_self _ _)
    have hrest : ∀ o ∈ rest, belowCap o = true := fun o h => hpre o (List.mem_cons_of_mem _ h)
    cases o with
    | panic => simp [belowCap] at ho
    | ok x =>
      cases x with
      | none => simpa [checkListGo] using ih best hrest
      | some y =>
        have hy : y.confidence < 100 := by simpa [belowCap] using ho
        simp only [List.cons_append, checkListGo, not_le.2 hy, if_false]
        exact ih _ hrest

lemma checkListGo_map_ok (l : List (Option WappTechCheckResult))
    (best : Option WappTechCheckResult) :
    checkListGo (l.map .ok) best = .ok (aggPureGo l best) := by
  induction l generalizing best with
  | nil => rfl
  | cons o rest ih =>
    cases o with
    | none => simpa [checkListGo, aggPureGo] using ih _
    | some r =>
      by_cases h : 100 ≤ r.confidence
      · simp [checkListGo, aggPureGo, h]
      · simp [checkListGo, aggPureGo, h, ih]

/-- The program's aggregation loop applied to panic-free outcomes is the pure
aggregation. -/
lemma checkList_map_ok (l : List (Option WappTechCheckResult)) :
    checkList (l.map .ok) = .ok (aggregatePure l) :=
  checkListGo_map_ok l none

lemma maxConf_cons_none (rest : List (Option WappTechCheckResult)) :
    maxConf (none :: rest) = maxConf rest := by
  simp [maxConf, someConfs]

lemma maxConf_cons_some (r : WappTechCheckResult) (rest : List (Option WappTechCheckResult)) :
    maxConf (some r :: rest) = max r.confidence (maxConf rest) := by
  simp [maxConf, someConfs]

lemma bestConf_aggPureGo (l : List (Option WappTechCheckResult))
    (best : Option WappTechCheckResult)
    (h100 : ∀ r, some r ∈ l → r.confidence < 100) (hb : 0 ≤ bestConf best) :
    bestConf (aggPureGo l best) = max (bestConf best) (maxConf l) := by
  induction l generalizing best with
  | nil =>
    have : maxConf [] = 0 := rfl
    simp [aggPureGo, this, max_eq_left hb]
  | cons o rest ih =>
    have h100r : ∀ r, some r ∈ rest → r.confidence < 100 :=
      fun r h => h100 r (List.mem_cons_of_mem _ h)
    cases o with
    | none => rw [maxConf_cons_none]; simpa [aggPureGo] using ih best h100r hb
    | some r =>
      have hr : r.confidence < 100 := h100 r (List.mem_cons_self _ _)
      rw [maxConf_cons_some]
      by_cases hc : bestConf best < r.confidence
      · have : 0 ≤ bestConf (some r) := le_trans hb (le_of_lt hc)
        rw [show aggPureGo (some r :: rest) best =
            aggPureGo rest (some r) by simp [aggPureGo, not_le.2 hr, hc]]
        rw [ih (some r) h100r this]
        have : bestConf (some r) = r.confidence := rfl
        rw [this, ← max_assoc, max_eq_right (le_of_lt hc)]
      · rw [show aggPureGo (some r :: rest) best =
            aggPureGo rest best by simp [aggPureGo, not_le.2 hr, hc]]
        rw [ih best h100r hb, ← max_assoc, max_eq_left (not_lt.1 hc)]

lemma le_foldr_max (c : Int) (l : List Int) (h : c ∈ l) : c ≤ l.foldr max 0 := by
  induction l with
  | nil => cases h
  | cons x rest ih =>
    rcases List.mem_cons.1 h with rfl | h
    · exact le_max_left _ _
    · exact le_trans (ih h) (le_max_right _ _)

lemma maxConf_pos (l : List (Option WappTechCheckResult)) (r : WappTechCheckResult)
    (hmem : some r ∈ l) (hr : 0 < r.confidence) : 0 < maxConf l := by
  have : r.confidence ∈ someConfs l :=
    List.mem_filterMap.2 ⟨some r, hmem, rfl⟩
  exact lt_of_lt_of_le hr (le_foldr_max _ _ this)

lemma maxConf_perm (l l' : List (Option WappTechCheckResult)) (h : l.Perm l') :
    maxConf l = maxConf l' := by
  unfold maxConf someConfs
  exact (h.filterMap _).foldr_op_eq

/-! ## The claims -/

/-- C3.  Aggregation short-circuit: when the outcomes before some outcome
`some r` with `r.confidence >= 100` are all non-panicking with `Some`
confidences strictly below 100, the aggregate of the whole sequence is
exactly `some r`, whatever outcomes follow it — the suffix `suf` is
universally quantified (it may even contain panics), which is the pure
rendering of "the rules after it are not evaluated at all". -/
theorem aggregator_short_circuit (pre suf : List (PanicOr (Option WappTechCheckResult)))
    (r : WappTechCheckResult)
    (hpre : ∀ o ∈ pre, belowCap o = true) (hr : 100 ≤ r.confidence) :
    checkList (pre ++ .ok (some r) :: suf) = .ok (some r) :=
  checkListGo_short_circuit pre suf r none hpre hr

/-- Witness for C3, the spec's `[40, 100, 90]` shape with the third outcome
replaced by a panic to exhibit that it is never examined. -/
theorem aggregator_short_circuit_witness :
    checkList [.ok (some ⟨40, none⟩), .ok (some ⟨100, none⟩), .panic] =
      .ok (some ⟨100, none⟩) :=
  aggregator_short_circuit [.ok (some ⟨40, none⟩)] [.panic] ⟨100, none⟩ (by decide)
    (by decide)

/-- C4 (amended).  When every `Some` outcome's confidence is strictly below
100 and the maximum such confidence is positive, the aggregate is a `Some`
whose confidence is exactly that maximum, and the resulting confidence is
invariant under permutation of the outcome sequence.  (The positivity
hypothesis is forced: the loop only replaces the running best on a strict
increase over 0, so outcomes with confidence `<= 0` are discarded — see the
counterexample.) -/
theorem aggregate_max_confidence (l : List (Option WappTechCheckResult))
    (h100 : ∀ o ∈ l, belowCapPure o = true) (hpos : 0 < maxConf l) :
    (aggregatePure l ≠ none ∧ bestConf (aggregatePure l) = maxConf l) ∧
      ∀ l', l.Perm l' → bestConf (aggregatePure l') = maxConf l := by
  have h100a : ∀ r, some r ∈ l → r.confidence < 100 := fun r h => by
    simpa [belowCapPure] using h100 _ h
  have key : bestConf (aggregatePure l) = maxConf l := by
    have := bestConf_aggPureGo l none h100a (le_refl 0)
    simpa [aggregatePure, bestConf, max_eq_right (le_of_lt hpos)] using this
  refine ⟨⟨?_, key⟩, ?_⟩
  · intro hnone
    rw [aggregatePure] at hnone
    rw [aggregatePure, hnone] at key
    have : bestConf none = 0 := rfl
    omega
  · intro l' hperm
    have h100' : ∀ r, some r ∈ l' → r.confidence < 100 :=
      fun r h => h100a r (hperm.symm.subset h)
    have := bestConf_aggPureGo l' none h100' (le_refl 0)
    have hm : maxConf l' = maxConf l := (maxConf_perm l l' hperm).symm
    simpa [aggregatePure, bestConf, hm, max_eq_right (le_of_lt hpos)] using this

/-- Witness for C4: the spec's `[30, 70, 50]` example and its `[70, 30]`
reordering both aggregate to confidence 70. -/
theorem aggregate_max_confidence_witness :
    bestConf (aggregatePure [some ⟨30, none⟩, some ⟨70, none⟩, some ⟨50, none⟩]) = 70 ∧
      bestConf (aggregatePure [some ⟨70, none⟩, some ⟨30, none⟩]) = 70 :=
  ⟨((aggregate_max_confidence
        [some ⟨30, none⟩, some ⟨70, none⟩, some ⟨50, none⟩]
        (by decide) (by decide)).1.2).trans (by decide),
    ((aggregate_max_confidence [some ⟨70, none⟩, some ⟨30, none⟩]
        (by decide) (by decide)).1.2).trans (by decide)⟩

/-- C4, counterexample to the claim as stated: a sequence whose only `Some`
outcome has confidence −5 (producible by a `confidence:-5` directive) — every
`Some` outcome is strictly below 100, yet the aggregate is `None`, which has
no confidence (and reads as 0 through `bestConf`), while the claim promises
the maximum `Some` confidence, −5.  The loop's strict comparison against the
default 0 discards every non-positive outcome. -/
theorem aggregate_nonpositive_confidence_counterexample :
    aggregatePure [some ⟨-5, none⟩] = none
    ∧ someConfs [some ⟨-5, none⟩] = [-5]
    ∧ belowCapPure (some ⟨-5, none⟩) = true := by decide

/-! ### String-splitting lemmas for the parsing claims -/

lemma splitOnce_eq_none_of_not_mem (c : Char) (s : Str) (h : c ∉ s) :
    splitOnce c s = none := by
  induction s with
  | nil => rfl
  | cons x xs ih =>
    have hx : x ≠ c := fun hc => h (hc ▸ List.mem_cons_self _ _)
    have := ih (fun hc => h (List.mem_cons_of_mem _ hc))
    simp [splitOnce, hx, this]

lemma splitOnce_append_cons (c : Char) (p v : Str) (hp : c ∉ p) :
    splitOnce c (p ++ c :: v) = some (p, v) := by
  induction p with
  | nil => simp [splitOnce]
  | cons d p' ih =>
    have hd : d ≠ c := fun hc => hp (hc ▸ List.mem_cons_self _ _)
    have := ih (fun hc => hp (List.mem_cons_of_mem _ hc))
    simp [splitOnce, hd, this]

lemma splitDelim_no_delim (l : Str) (h : ∀ c ∈ l, c ≠ '\\') : splitDelim l = [l] := by
  induction l with
  | nil => rfl
  | cons c rest ih =>
    cases rest with
    | nil => rfl
    | cons r rest' =>
      have hc : c ≠ '\\' := h c (List.mem_cons_self _ _)
      have hrest : ∀ x ∈ r :: rest', x ≠ '\\' := fun x hx => h x (List.mem_cons_of_mem _ hx)
      rw [splitDelim, if_neg (fun hand => hc hand.1), ih hrest]

lemma splitDelim_append (p rest : Str) (hp : ∀ c ∈ p, c ≠ '\\') :
    splitDelim (p ++ '\\' :: ';' :: rest) = p :: splitDelim rest := by
  induction p with
  | nil =>
    show splitDelim ('\\' :: ';' :: rest) = [] :: splitDelim rest
    rw [splitDelim, if_pos ⟨rfl, rfl⟩]
  | cons c p' ih =>
    have hc : c ≠ '\\' := hp c (List.mem_cons_self _ _)
    have hp' : ∀ x ∈ p', x ≠ '\\' := fun x hx => hp x (List.mem_cons_of_mem _ hx)
    cases p' with
    | nil =>
      show splitDelim (c :: '\\' :: ';' :: rest) = [c] :: splitDelim rest
      rw [splitDelim, if_neg (fun hand => by exact absurd hand.2 (by decide))]
      rw [show splitDelim ('\\' :: ';' :: rest) = [] :: splitDelim rest by
        rw [splitDelim, if_pos ⟨rfl, rfl⟩]]
    | cons d p'' =>
      show splitDelim (c :: (d :: p'') ++ '\\' :: ';' :: rest) = _
      rw [show (c :: (d :: p'') ++ '\\' :: ';' :: rest) =
        c :: d :: (p'' ++ '\\' :: ';' :: rest) by simp]
      rw [splitDelim, if_neg (fun hand => hc hand.1)]
      rw [show (d :: (p'' ++ '\\' :: ';' :: rest)) = (d :: p'') ++ '\\' :: ';' :: rest by simp]
      rw [ih hp']

lemma digitsVal_props (ds : Str) (n : Nat) (h : digitsVal ds = some n) :
    ds ≠ [] ∧ ds.all Char.isDigit = true := by
  unfold digitsVal at h
  by_cases hc : ds = [] ∨ ¬ (ds.all Char.isDigit = true)
  · rw [if_pos hc] at h
    cases h
  · push_neg at hc
    exact hc

/-- An ASCII digit is a Unicode decimal digit (the first `ndRanges` entry). -/
lemma isDigit_isNd (c : Char) (h : c.isDigit = true) : c.isNd = true := by
  have hb : 48 ≤ c.toNat ∧ c.toNat ≤ 57 := by
    simp [Char.isDigit] at h
    exact h
  have : (0x30 ≤ c.toNat ∧ c.toNat ≤ 0x39) := hb
  simp only [Char.isNd, ndRanges, List.any_cons, Bool.or_eq_true, decide_eq_true_eq]
  exact Or.inl this

lemma all_isDigit_isNd (ds : Str) (h : ds.all Char.isDigit = true) :
    ds.all Char.isNd = true := by
  rw [List.all_eq_true] at h ⊢
  exact fun c hc => isDigit_isNd c (h c hc)

lemma digitRun_all (ds : Str) (h : ds.all Char.isNd = true) : digitRun ds = (ds, []) := by
  induction ds with
  | nil => rfl
  | cons c rest ih =>
    rw [List.all_cons, Bool.and_eq_true] at h
    simp [digitRun, h.1, ih h.2]

/-- C5.  The version-expression compiler: on a string of the conditional
shape `^([^?]*)\?([^:]*):(.*)$` (decomposed by `condShape`), the condition
segment must compile to a `Var` — then the result is `Conditional` of the
three compiled segments, with an empty true-branch giving a `None` branch —
while a `Const` or empty condition is an error; a string not of the shape
compiles as `Always` of the whole string's value, and the empty whole string
is an error. -/
theorem version_pattern_conditional_shape (s : Str) :
    (∀ c1 c2 c3 i te fe, condShape s = some (c1, c2, c3) →
      WappTechVersionValue.parse c1 = .ok (some (.Var i)) →
      WappTechVersionValue.parse c2 = .ok te →
      WappTechVersionValue.parse c3 = .ok fe →
      WappTechVersionPattern.parse s = .ok (.Conditional i te fe))
    ∧ (∀ c1 c2 c3 i fe, condShape s = some (c1, c2, c3) →
      WappTechVersionValue.parse c1 = .ok (some (.Var i)) → c2 = [] →
      WappTechVersionValue.parse c3 = .ok fe →
      WappTechVersionPattern.parse s = .ok (.Conditional i none fe))
    ∧ (∀ c1 c2 c3 k, condShape s = some (c1, c2, c3) →
      WappTechVersionValue.parse c1 = .ok (some (.Const k)) →
      WappTechVersionPattern.parse s = .err)
    ∧ (∀ c1 c2 c3, condShape s = some (c1, c2, c3) →
      WappTechVersionValue.parse c1 = .ok none →
      WappTechVersionPattern.parse s = .err)
    ∧ (condShape s = none → ∀ v, WappTechVersionValue.parse s = .ok (some v) →
      WappTechVersionPattern.parse s = .ok (.Always v))
    ∧ (s = [] → WappTechVersionPattern.parse s = .err) := by
  refine ⟨?_, ?_, ?_, ?_, ?_, ?_⟩
  · intro c1 c2 c3 i te fe hc h1 h2 h3
    simp only [WappTechVersionPattern.parse, hc, h1, h2, h3, ParseRes.bind]
  · intro c1 c2 c3 i fe hc h1 h2 h3
    subst h2
    have h2' : WappTechVersionValue.parse [] = .ok none := rfl
    simp only [WappTechVersionPattern.parse, hc, h1, h2', h3, ParseRes.bind]
  · intro c1 c2 c3 k hc h1
    simp only [WappTechVersionPattern.parse, hc, h1, ParseRes.bind]
  · intro c1 c2 c3 hc h1
    simp only [WappTechVersionPattern.parse, hc, h1, ParseRes.bind]
  · intro hc v h1
    simp only [WappTechVersionPattern.parse, hc, h1, ParseRes.bind]
  · intro hs
    subst hs
    rfl

/-- Witness for C5: the spec's example `\1?next:\2`. -/
theorem version_pattern_conditional_shape_witness :
    WappTechVersionPattern.parse (lit "\\1?next:\\2") =
      .ok (.Conditional 1 (some (.Const (lit "next"))) (some (.Var 2))) :=
  (version_pattern_conditional_shape (lit "\\1?next:\\2")).1
    (lit "\\1") (lit "next") (lit "\\2") 1
    (some (.Const (lit "next"))) (some (.Var 2))
    (by decide) (by decide) (by decide) (by decide)

/-- C6 (amended).  The version-value rule: the empty string is no value; a
whole-string backslash followed by ASCII digits is `Var` of the digits' value
provided it fits in the 64-bit `usize`; a backslash-digit run (the regex `\d`
matching any Unicode `Nd` digit) appearing as a proper substring is an error;
a whole-string run whose `usize` parse fails — non-ASCII digits or overflow —
is likewise an error; a string with no backslash-digit occurrence is `Const`
verbatim. -/
theorem version_value_rule (s : Str) :
    (s = [] → WappTechVersionValue.parse s = .ok none)
    ∧ (∀ ds n, s = '\\' :: ds → digitsVal ds = some n → n < 2 ^ 64 →
      WappTechVersionValue.parse s = .ok (some (.Var n)))
    ∧ (∀ p ds t, findBackref s = some (p, ds, t) → 1 + ds.length ≠ s.length →
      WappTechVersionValue.parse s = .err)
    ∧ (∀ p ds t, findBackref s = some (p, ds, t) → 1 + ds.length = s.length →
      parseUsize ds = none →
      WappTechVersionValue.parse s = .err)
    ∧ (findBackref s = none → s ≠ [] →
      WappTechVersionValue.parse s = .ok (some (.Const s))) := by
  refine ⟨?_, ?_, ?_, ?_, ?_⟩
  · intro hs; subst hs; rfl
  · intro ds n hs hd hlt
    subst hs
    obtain ⟨hne, hall⟩ := digitsVal_props ds n hd
    obtain ⟨d, ds', rfl⟩ := List.exists_cons_of_ne_nil hne
    have hrun : digitRun (d :: ds') = (d :: ds', []) :=
      digitRun_all _ (all_isDigit_isNd _ hall)
    have hfb : findBackref ('\\' :: d :: ds') = some ([], d :: ds', []) := by
      rw [findBackref, hrun]
    have hus : parseUsize (d :: ds') = some n := by
      unfold parseUsize
      rw [hd]
      show (if n < 2 ^ 64 then some n else none) = some n
      rw [if_pos hlt]
    have hlen2 : 1 + (d :: ds').length = ('\\' :: d :: ds').length := by
      simp only [List.length_cons]
      omega
    simp only [WappTechVersionValue.parse, hfb, hus]
    rw [if_neg (by simp), if_neg (fun hcon => hcon hlen2)]
  · intro p ds t hf hlen
    have hne : s ≠ [] := by
      intro hs; subst hs; cases hf
    simp [WappTechVersionValue.parse, hne, hf, hlen]
  · intro p ds t hf hlen hus
    have hne : s ≠ [] := by
      intro hs; subst hs; cases hf
    simp only [WappTechVersionValue.parse, hf, hus]
    rw [if_neg hne, if_neg (fun hcon => hcon hlen)]
  · intro hf hne
    simp [WappTechVersionValue.parse, hne, hf]

/-- Witness for C6: `\42` compiles to `Var 42`. -/
theorem version_value_rule_witness :
    WappTechVersionValue.parse (lit "\\42") = .ok (some (.Var 42)) :=
  (version_value_rule (lit "\\42")).2.1 ['4', '2'] 42 rfl (by decide) (by decide)

/-- C6, counterexample to the claim as stated: a backslash followed by twenty
`9`s is entirely backslash-digits, but its decimal value overflows the 64-bit
`usize`, so `parse::<usize>` fails and the compiler returns an error instead
of the promised `Var`; likewise `\٣` (backslash + U+0663, a Unicode decimal
digit matched by the regex's `\d`) errors on the ASCII-only `usize` parse
rather than compiling to anything, and `x\٣y` errors on the
whole-string-length check rather than compiling to `Const` verbatim. -/
theorem version_value_usize_overflow_counterexample :
    WappTechVersionValue.parse ('\\' :: List.replicate 20 '9') = .err
    ∧ WappTechVersionValue.parse ['\\', '٣'] = .err
    ∧ WappTechVersionValue.parse ['x', '\\', '٣', 'y'] = .err := by decide

/-- C7 (amended).  `Tagged::parse` panics — it does not return an error — on
a directive segment lacking the `:` separator (`split_once(':').unwrap()`)
and on a non-integer `confidence` value (`v.parse().unwrap()`), whatever the
inner parser. -/
theorem tagged_parse_malformed_directive_panics {T : Type} (inner : Str → ParseRes T)
    (p seg : Str) (hp : ∀ c ∈ p, c ≠ '\\') (hs : ∀ c ∈ seg, c ≠ '\\') :
    (':' ∉ seg → Tagged.parse inner (p ++ '\\' :: ';' :: seg) = .panic)
    ∧ (∀ v, seg = lit "confidence" ++ ':' :: v → parseI32 v = none →
      Tagged.parse inner (p ++ '\\' :: ';' :: seg) = .panic) := by
  have hsplit : splitDelim (p ++ '\\' :: ';' :: seg) = [p, seg] := by
    rw [splitDelim_append p seg hp, splitDelim_no_delim seg hs]
  constructor
  · intro hmem
    have hd : applyDirectives [seg] 100 none = .panic := by
      simp [applyDirectives, splitOnce_eq_none_of_not_mem ':' seg hmem]
    simp [Tagged.parse, hsplit, hd, ParseRes.bind]
  · intro v hseg hv
    subst hseg
    have hd : applyDirectives [lit "confidence" ++ ':' :: v] 100 none = .panic := by
      simp [applyDirectives, splitOnce_append_cons ':' (lit "confidence") v (by decide), hv]
    simp [Tagged.parse, hsplit, hd, ParseRes.bind]

/-- Witness for C7: the directive segment `confidence` (no `:`) panics, via
the theorem's first part. -/
theorem tagged_parse_malformed_directive_panics_witness :
    Tagged.parse strInner (['x'] ++ '\\' :: ';' :: lit "confidence") = .panic :=
  (tagged_parse_malformed_directive_panics strInner ['x'] (lit "confidence")
    (by decide) (by decide)).1 (by decide)

/-- C7, counterexample to the claim as stated: both malformed-directive
shapes crash (the model's `panic`) rather than returning an error value. -/
theorem tagged_parse_crash_counterexample :
    Tagged.parse strInner (lit "x\\;confidence") = .panic
    ∧ Tagged.parse strInner (lit "x\\;confidence:abc") = .panic := by decide

/-- C9 (amended).  `Tagged::parse` performs no range validation on the
`confidence` directive: any value the `i32` parser accepts — including 0,
negative values and values above 100 — becomes the rule's confidence
verbatim, and with no directives the default is 100. -/
theorem tagged_parse_confidence_unvalidated {T : Type} (inner : Str → ParseRes T)
    (p ds : Str) (v : Int)
    (hp : ∀ c ∈ p, c ≠ '\\') (hd : ∀ c ∈ ds, c ≠ '\\') (hv : parseI32 ds = some v) :
    Tagged.parse inner (p ++ '\\' :: ';' :: (lit "confidence" ++ ':' :: ds)) =
      (inner p).map (fun x => ⟨x, v, none⟩)
    ∧ Tagged.parse inner p = (inner p).map (fun x => ⟨x, 100, none⟩) := by
  constructor
  · have hconf : ∀ c ∈ lit "confidence", c ≠ '\\' := by decide
    have hseg : ∀ c ∈ lit "confidence" ++ ':' :: ds, c ≠ '\\' := by
      intro c hc
      rcases List.mem_append.1 hc with h | h
      · exact hconf c h
      · rcases List.mem_cons.1 h with rfl | h
        · decide
        · exact hd c h
    have hsplit := splitDelim_append p (lit "confidence" ++ ':' :: ds) hp
    rw [splitDelim_no_delim _ hseg] at hsplit
    have hdir : applyDirectives [lit "confidence" ++ ':' :: ds] 100 none = .ok (v, none) := by
      simp [applyDirectives, splitOnce_append_cons ':' (lit "confidence") ds (by decide), hv]
    simp [Tagged.parse, hsplit, hdir, ParseRes.bind]
  · have hsplit := splitDelim_no_delim p hp
    have hdir : applyDirectives [] 100 none = .ok (100, none) := rfl
    simp [Tagged.parse, hsplit, hdir, ParseRes.bind]

/-- Witness for C9: `confidence:200` is accepted verbatim. -/
theorem tagged_parse_confidence_unvalidated_witness :
    Tagged.parse strInner (['p'] ++ '\\' :: ';' :: (lit "confidence" ++ ':' :: lit "200")) =
      .ok ⟨['p'], 200, none⟩ :=
  (tagged_parse_confidence_unvalidated strInner ['p'] (lit "200") 200
    (by decide) (by decide) (by decide)).1

/-- C9, counterexample to the claim as stated: a `confidence:150` directive —
outside `1..=100` — is accepted, and the compiled rule carries confidence
150. -/
theorem confidence_out_of_range_accepted_counterexample :
    Tagged.parse strInner (lit "p\\;confidence:150") = .ok ⟨lit "p", 150, none⟩
    ∧ ¬ ((150 : Int) ≤ 100) := by decide

/-- C1 (amended).  `WappTech::check` folds a category-level outcome through
the shared aggregator for each signal the page exposes, in the fixed order
URL, headers, cookies, DOM, HTML, text — and nothing else: the result is
invariant under arbitrary changes to the technology's `meta`, `script_src`
and `scripts` rule sets, which `check` never consults. -/
theorem check_fixed_order_no_scripts_meta (t : WappTech) (page : WappPage)
    (m : List (Str × List (Tagged RegexM))) (ss sc : List (Tagged RegexM)) :
    WappTech.check { t with meta := m, script_src := ss, scripts := sc } page =
      WappTech.check t page
    ∧ WappTech.check t page = checkList
        ((page.url.map (fun u => t.checkUrl u)).toList ++
         (page.headers.map (fun h => t.checkHeaders h)).toList ++
         (page.cookies.map (fun c => t.checkCookies c)).toList ++
         (page.dom.map (fun d => t.checkDom d)).toList ++
         (page.html.map (fun h => t.checkHtml h)).toList ++
         (page.text.map (fun x => t.checkText x)).toList) :=
  ⟨rfl, rfl⟩

/-- C1, counterexample to the claim as stated: a technology declaring only
match-anything confidence-100 `meta`, `script_src` and `scripts` rules yields
no outcome from `WappTech::check` on a page exposing every signal, while the
specification's nine-category dispatcher on the same page (which also
exposes a matching meta tag, a script source and a script body) yields the
confidence-100 outcome those rules promise. -/
theorem check_ignores_meta_scripts_counterexample :
    WappTech.check techMetaOnly pageFull.base = .ok none
    ∧ WappTech.checkSpecNineCategories techMetaOnly pageFull = .ok (some ⟨100, none⟩) := by
  decide

/-- C2 (amended).  On a matching input, a version expression `Always(Var i)`
whose capture group `i` is absent or did not participate makes evaluation
panic (`captures[i]` of the regex crate) instead of degrading to a
version-less outcome; only the `Conditional` participation test on `cond_var`
itself degrades safely, selecting the false branch. -/
theorem checkRegex_capture_panics (t : Tagged RegexM) (input : Str)
    (captures : Captures) (i : Nat)
    (hm : t.inner.captures input = some captures) :
    (t.version = some (.Always (.Var i)) → captures.get i = none →
      Tagged.checkRegex t input = .panic)
    ∧ (∀ cond_var te fe, t.version = some (.Conditional cond_var te fe) →
      captures.get cond_var = none →
      Tagged.checkRegex t input =
        (resolveOpt fe captures).map (fun v => some ⟨t.confidence, v⟩)) := by
  constructor
  · intro hv hc
    simp only [Tagged.checkRegex, hm, hv, WappTechVersionValue.resolve, hc, PanicOr.map]
  · intro cond_var te fe hv hc
    simp only [Tagged.checkRegex, hm, hv, hc]

/-- Witness for C2: a conditional whose `cond_var` did not participate
selects the (empty) false branch and returns safely without a version. -/
theorem checkRegex_capture_panics_witness :
    Tagged.checkRegex ⟨reA, 50, some (.Conditional 1 (some (.Const (lit "9"))) none)⟩
      ['a'] = .ok (some ⟨50, none⟩) :=
  (checkRegex_capture_panics ⟨reA, 50, some (.Conditional 1 (some (.Const (lit "9"))) none)⟩
    ['a'] [some ['a']] 1 rfl).2 1 (some (.Const (lit "9"))) none rfl rfl

/-- C2, counterexample to the claim as stated: the pattern `a` has no capture
group 1, yet a rule carrying version `\1` against the matching input `a`
panics rather than returning the match outcome with version `None`. -/
theorem resolve_out_of_range_panics_counterexample :
    Tagged.checkRegex ⟨reA, 50, some (.Always (.Var 1))⟩ ['a'] = .panic := by decide

/-- C8 (amended).  Inside one string-collection category, `to_vec` drops each
rule whose compilation returns an error and keeps the successes in order, so
loading continues with the record's remaining valid rules — provided no rule
panics (keyed categories with wrongly-typed JSON and malformed directives
abort instead; see the counterexample). -/
theorem to_vec_drops_failed_rules {T : Type} (f : Json → ParseRes T) (l : List Json)
    (h : ∀ x ∈ l, f x ≠ .panic) :
    toVec f (some (.arr l)) = .ok (l.filterMap (fun x => (f x).toOption)) := by
  show collectOks (l.map f) = _
  induction l with
  | nil => rfl
  | cons x rest ih =>
    have hx := h x (List.mem_cons_self _ _)
    have hrest : ∀ y ∈ rest, f y ≠ .panic := fun y hy => h y (List.mem_cons_of_mem _ hy)
    cases hfx : f x with
    | panic => exact absurd hfx hx
    | err =>
      simp [collectOks, hfx, ih hrest, List.filterMap_cons, ParseRes.toOption]
    | ok v =>
      simp [collectOks, hfx, ih hrest, List.filterMap_cons, ParseRes.toOption, ParseRes.map]

/-- Witness for C8: a collection with one wrongly-typed rule among two valid
ones loads the two valid ones. -/
theorem to_vec_drops_failed_rules_witness :
    toVec jsonStrInner (some (.arr [.str (lit "a"), .num 3, .str (lit "b")])) =
      .ok [lit "a", lit "b"] :=
  (to_vec_drops_failed_rules jsonStrInner [.str (lit "a"), .num 3, .str (lit "b")]
    (by decide)).trans (by decide)

/-- C8, counterexample to the claim as stated: one record whose `cookies`
field is a wrongly-typed JSON value (a number) makes `to_pattern_map` return
an error that `load_from_bytes` propagates with `?`, aborting the load of the
whole database — the otherwise-valid first record is lost too. -/
theorem load_aborts_on_mistyped_cookies_counterexample :
    WappTech.loadFromData selNewToy regexNewToy
      [(lit "Good", rawEmpty), (lit "Bad", rawBadCookies)] = .err := rfl

/-- C10.  The compile path does produce existence rules carrying a
capture-referencing version expression — `from_selector` on
`div\;version:\1` hands the selector's version directive to the `exists`
check unchanged — and evaluating such a rule hits `unreachable!()` (a panic)
instead of returning `Some` with a `None` version as specified. -/
theorem unit_check_panics_on_capture_version :
    (WappTechDomPatttern.from_selector selNewToy (lit "div\\;version:\\1")).map
        (fun p => (p.exists_, p.exists_.checkUnit)) =
      .ok (⟨(), 100, some (.Always (.Var 1))⟩, .panic) := rfl
